import Mathlib

/-!
Verification development for the bitcask-style key-value engine.

The definitions below are a shallow embedding of the Go sources:
byte sequences are `List Nat` (every byte produced by the code is < 256),
Go `int64`/`uint32` arithmetic is carried out on `Nat`/`Int` with explicit
truncation (`% 2^32`) exactly where the source converts, fallible operations
return `Except`, and a Go `panic` (nil-pointer dereference, slice bounds) is
modelled as a distinguished error value.
-/

namespace Bitcask

abbrev Bytes := List Nat

deriving instance DecidableEq for Except

/-! ### encoding/binary varints

`putUvarintAux` is `binary.PutUvarint`: emit 7 payload bits per byte with the
continuation bit `0x80` set, little-endian first.  The Go loop terminates
because the value shrinks; here the same recursion is fuel-indexed, and fuel 9
(at most `MaxVarintLen64 = 10` emitted bytes) covers every 64-bit value. -/

def putUvarintAux : Nat → Nat → Bytes
  | 0, x => [x]
  | fuel + 1, x => if x < 128 then [x] else (x % 128 + 128) :: putUvarintAux fuel (x / 128)

def putUvarint (x : Nat) : Bytes := putUvarintAux 9 x

/-- Go `binary.PutVarint` zig-zag encodes `uint64(x) << 1`; every call site in
the sources passes a non-negative length, for which the zig-zag image is `2*x`. -/
def putVarintOfNat (x : Nat) : Bytes := putUvarint (2 * x)

/-- Go `binary.Uvarint` loop: accumulator `x`, shift `s`, byte index `i`; returns
the decoded value and the number of bytes consumed (`0` when the buffer ran out,
negative on overflow, exactly as the Go convention). -/
def uvarintAux : Bytes → Nat → Nat → Nat → Nat × Int
  | [], _, _, _ => (0, 0)
  | b :: rest, x, s, i =>
    if i = 10 then (0, -((i : Int) + 1))
    else if b < 128 then
      if i = 9 ∧ b > 1 then (0, -((i : Int) + 1))
      else (x ||| b <<< s, (i : Int) + 1)
    else uvarintAux rest (x ||| (b % 128) <<< s) (s + 7) (i + 1)

def uvarintDecode (buf : Bytes) : Nat × Int := uvarintAux buf 0 0 0

/-- Go `binary.Varint`: decode the unsigned form, then undo the zig-zag;
`^x` on `int64` is `-x - 1`. -/
def varintDecode (buf : Bytes) : Int × Int :=
  let p := uvarintDecode buf
  let x : Int := (p.1 >>> 1 : Nat)
  (if p.1 % 2 ≠ 0 then -x - 1 else x, p.2)

/-! ### Little-endian uint32 -/

/-- Go `binary.LittleEndian.PutUint32`: bytes `v`, `v>>8`, `v>>16`, `v>>24`,
each truncated to 8 bits. -/
def putUint32LE (v : Nat) : Bytes :=
  [v % 256, (v >>> 8) % 256, (v >>> 16) % 256, (v >>> 24) % 256]

/-- Go `binary.LittleEndian.Uint32` over the first four bytes of the buffer. -/
def readUint32LE (b : Bytes) : Nat :=
  b.getD 0 0 ||| b.getD 1 0 <<< 8 ||| b.getD 2 0 <<< 16 ||| b.getD 3 0 <<< 24

/-! ### CRC-32 (IEEE polynomial, reflected form, as in hash/crc32) -/

def crc32Poly : Nat := 0xEDB88320

def crc32BitStep (c : Nat) : Nat := if c % 2 = 1 then (c / 2) ^^^ crc32Poly else c / 2

def crc32ByteStep (c b : Nat) : Nat := crc32BitStep^[8] (c ^^^ b)

/-- Go `crc32.Update(crc, IEEETable, p)`: complement, fold the byte steps,
complement again. -/
def crc32Update (crc : Nat) (p : Bytes) : Nat :=
  (p.foldl crc32ByteStep (crc ^^^ 0xFFFFFFFF)) ^^^ 0xFFFFFFFF

/-- Go `crc32.ChecksumIEEE`. -/
def checksumIEEE (p : Bytes) : Nat := crc32Update 0 p

/-! ### Log record codec (data/log_record.go and DataFile.ReadLogRecord)

Record types: `0` Normal, `1` Deleted (tombstone), `2` TxnFinished. -/

def LogRecordNormal : Nat := 0
def LogRecordDeleted : Nat := 1
def LogRecordTxnFinished : Nat := 2

structure LogRecord where
  key : Bytes
  value : Bytes
  rtype : Nat
deriving DecidableEq

/-- In-memory position of a record: file id, byte offset of the record's first
byte, total encoded size (`Fid`, `Offset`, `Size` in the source). -/
structure LogRecordPos where
  fid : Nat
  offset : Nat
  size : Nat
deriving DecidableEq

structure LogRecordHeader where
  crc : Nat
  recordType : Nat
  keySize : Nat
  valueSize : Nat
deriving DecidableEq

/-- `binary.MaxVarintLen32 * 2 + 5`. -/
def maxLogRecordHeaderSize : Nat := 5 * 2 + 5

/-- Go `uint32(x)` applied to an `int64`: truncation mod `2^32`. -/
def intToUint32 (x : Int) : Nat := (x % (2 ^ 32 : Int)).toNat

/-- `EncodeLogRecord`: header is CRC (4 bytes LE), type tag, varint key size,
varint value size; payload is key then value; the CRC covers everything after
the CRC field.  Returns the bytes and the total size. -/
def encodeLogRecord (r : LogRecord) : Bytes × Nat :=
  let headerTail := r.rtype :: (putVarintOfNat r.key.length ++ putVarintOfNat r.value.length)
  let body := headerTail ++ r.key ++ r.value
  let crc := checksumIEEE body
  (putUint32LE crc ++ body, 4 + body.length)

/-- `decodeLogRecordHeader`: needs at least five bytes; reads the CRC and type,
then the two varints; returns the header and the header length (Go `int64`).
Go slices with `buf[index:]`; a negative varint length would make that slice
panic, modelled here by clamping with `toNat`. -/
def decodeLogRecordHeader (buf : Bytes) : Option (LogRecordHeader × Int) :=
  if buf.length ≤ 4 then none
  else
    let p1 := varintDecode (buf.drop 5)
    let index1 : Int := 5 + p1.2
    let p2 := varintDecode (buf.drop index1.toNat)
    let index2 : Int := index1 + p2.2
    some (⟨readUint32LE buf, buf.getD 4 0, intToUint32 p1.1, intToUint32 p2.1⟩, index2)

/-- `getLogRecordCRC`: checksum of the post-CRC header slice, chained with the
key and the value via `crc32.Update`. -/
def getLogRecordCRC (lr : LogRecord) (header : Bytes) : Nat :=
  crc32Update (crc32Update (checksumIEEE header) lr.key) lr.value

inductive DFErr where
  | eofReached
  | invalidCrc
  | ioFailure
  | panicked
deriving DecidableEq

/-- `DataFile.readNBytes` through the buffered IO manager: `ReadAt` fails when
the requested window leaves the file (or the offset is negative). -/
def readNBytes (content : Bytes) (n : Nat) (off : Int) : Except DFErr Bytes :=
  if off < 0 then .error .ioFailure
  else if off.toNat + n ≤ content.length then .ok ((content.drop off.toNat).take n)
  else .error .ioFailure

/-- `DataFile.ReadLogRecord`: bound the header window by the file size, decode
the header (treating a missing header or an all-zero header as end of file),
read the payload, verify the CRC, and return the record with its total size.
Go panics (negative `make` length, slice bounds) are the `panicked` error. -/
def readLogRecord (content : Bytes) (offset : Int) : Except DFErr (LogRecord × Int) :=
  let fileSize : Int := content.length
  let headerBytes : Int :=
    if offset + (maxLogRecordHeaderSize : Int) > fileSize then fileSize - offset
    else (maxLogRecordHeaderSize : Int)
  if headerBytes < 0 then .error .panicked
  else
    match readNBytes content headerBytes.toNat offset with
    | .error e => .error e
    | .ok headerBuf =>
      match decodeLogRecordHeader headerBuf with
      | none => .error .eofReached
      | some (header, headerSize) =>
        if header.crc = 0 ∧ header.keySize = 0 ∧ header.valueSize = 0 then .error .eofReached
        else
          let keySize := header.keySize
          let valueSize := header.valueSize
          let kvRes : Except DFErr (Bytes × Bytes) :=
            if 0 < keySize ∨ 0 < valueSize then
              match readNBytes content (keySize + valueSize) (offset + headerSize) with
              | .error e => .error e
              | .ok kvBuf => .ok (kvBuf.take keySize, kvBuf.drop keySize)
            else .ok ([], [])
          match kvRes with
          | .error e => .error e
          | .ok kv =>
            let logRecord : LogRecord := ⟨kv.1, kv.2, header.recordType⟩
            if headerSize < 4 ∨ (headerBuf.length : Int) < headerSize then .error .panicked
            else
              let crc := getLogRecordCRC logRecord ((headerBuf.take headerSize.toNat).drop 4)
              if crc ≠ header.crc then .error .invalidCrc
              else .ok (logRecord, headerSize + (keySize : Int) + (valueSize : Int))

/-! ### In-memory index

The `index.Indexer` contract used by the engine: `Put` returns the previous
position, `Get` the current one, `Delete` the removed position plus a found
flag.  Modelled as an association list from user key to position. -/

abbrev Index := List (Bytes × LogRecordPos)

def idxGet : Index → Bytes → Option LogRecordPos
  | [], _ => none
  | (k, p) :: rest, key => if k = key then some p else idxGet rest key

def idxPut : Index → Bytes → LogRecordPos → Option LogRecordPos × Index
  | [], key, pos => (none, [(key, pos)])
  | (k, p) :: rest, key, pos =>
    if k = key then (some p, (key, pos) :: rest)
    else
      let r := idxPut rest key pos
      (r.1, (k, p) :: r.2)

def idxDelete : Index → Bytes → Option LogRecordPos × Bool × Index
  | [], _ => (none, false, [])
  | (k, p) :: rest, key =>
    if k = key then (some p, true, rest)
    else
      let r := idxDelete rest key
      (r.1, r.2.1, (k, p) :: r.2.2)

/-! ### Composite keys (batch.go) -/

/-- The sentinel sequence number for non-transactional writes. -/
def nonTransactionSeqNo : Nat := 0

/-- `logRecordKeyWithSeq`: uvarint-encoded sequence number prepended to the key. -/
def logRecordKeyWithSeq (key : Bytes) (seqNo : Nat) : Bytes :=
  putUvarint seqNo ++ key

/-- `parseLogRecordKey`: decode the leading uvarint, return the remaining user
key (`key[n:]`) and the sequence number. -/
def parseLogRecordKey (key : Bytes) : Bytes × Nat :=
  let p := uvarintDecode key
  (key.drop p.2.toNat, p.1)

/-- The fixed key of the commit-marker record (`txn-fin` in ASCII). -/
def txnFinKey : Bytes := [116, 120, 110, 45, 102, 105, 110]

/-! ### Startup replay (loadIndexFromDataFiles in the engine) -/

structure TransactionRecord where
  record : LogRecord
  pos : LogRecordPos
deriving DecidableEq

/-- The pending-transaction stash `transactionRecords : map[uint64][]*TransactionRecord`. -/
abbrev TxnStash := List (Nat × List TransactionRecord)

def stashGet : TxnStash → Nat → List TransactionRecord
  | [], _ => []
  | (s, l) :: rest, seqNo => if s = seqNo then l else stashGet rest seqNo

def stashAppend : TxnStash → Nat → TransactionRecord → TxnStash
  | [], seqNo, tr => [(seqNo, [tr])]
  | (s, l) :: rest, seqNo, tr =>
    if s = seqNo then (s, l ++ [tr]) :: rest else (s, l) :: stashAppend rest seqNo tr

def stashErase : TxnStash → Nat → TxnStash
  | [], _ => []
  | (s, l) :: rest, seqNo => if s = seqNo then rest else (s, l) :: stashErase rest seqNo

/-- The `updateIndex` closure of `loadIndexFromDataFiles`: tombstones delete and
count both the tombstone and the removed entry as reclaimable, other records
are put; a superseded position is reclaimable as well. -/
def updateIndex (idx : Index) (reclaim : Nat) (key : Bytes) (typ : Nat)
    (pos : LogRecordPos) : Index × Nat :=
  if typ = LogRecordDeleted then
    let r := idxDelete idx key
    let reclaim2 := reclaim + pos.size
    match r.1 with
    | some old => (r.2.2, reclaim2 + old.size)
    | none => (r.2.2, reclaim2)
  else
    let r := idxPut idx key pos
    match r.1 with
    | some old => (r.2, reclaim + old.size)
    | none => (r.2, reclaim)

structure ReplayState where
  index : Index
  stash : TxnStash
  seqNo : Nat
  reclaim : Nat
deriving DecidableEq

/-- One iteration of the replay loop body over a record and its position.
Records with the sentinel sequence update the index directly; a TxnFinished
marker applies the stashed records of its sequence — at the position of the
marker record itself, exactly as the source does — and other transactional
records are stashed with the sequence prefix stripped. -/
def replayStep (st : ReplayState) (e : LogRecord × LogRecordPos) : ReplayState :=
  let rk := parseLogRecordKey e.1.key
  let st2 :=
    if rk.2 = nonTransactionSeqNo then
      let u := updateIndex st.index st.reclaim rk.1 e.1.rtype e.2
      { st with index := u.1, reclaim := u.2 }
    else if e.1.rtype = LogRecordTxnFinished then
      let u := (stashGet st.stash rk.2).foldl
        (fun acc tr => updateIndex acc.1 acc.2 tr.record.key tr.record.rtype e.2)
        (st.index, st.reclaim)
      { st with index := u.1, reclaim := u.2, stash := stashErase st.stash rk.2 }
    else
      { st with stash := stashAppend st.stash rk.2 ⟨{ e.1 with key := rk.1 }, e.2⟩ }
  if rk.2 > st2.seqNo then { st2 with seqNo := rk.2 } else st2

/-- Replay a list of already-scanned `(record, position)` entries starting from
the empty index. -/
def replayEntries (entries : List (LogRecord × LogRecordPos)) : ReplayState :=
  entries.foldl replayStep ⟨[], [], nonTransactionSeqNo, 0⟩

/-- The per-file scan loop: `ReadLogRecord` at increasing offsets until EOF,
pairing each record with `⟨fileId, offset, uint32(size)⟩`.  Any error other
than EOF aborts the load (`none`).  The fuel only bounds the loop; offsets
strictly increase, so `content.length + 1` steps always suffice. -/
def scanFileAux (fileId : Nat) (content : Bytes) :
    Nat → Nat → Option (List (LogRecord × LogRecordPos))
  | 0, _ => none
  | fuel + 1, offset =>
    match readLogRecord content (offset : Int) with
    | .error .eofReached => some []
    | .error _ => none
    | .ok rs =>
      match scanFileAux fileId content fuel (offset + rs.2.toNat) with
      | none => none
      | some rest => some ((rs.1, ⟨fileId, offset, intToUint32 rs.2⟩) :: rest)

def scanFile (fileId : Nat) (content : Bytes) : Option (List (LogRecord × LogRecordPos)) :=
  scanFileAux fileId content (content.length + 1) 0

/-- `loadIndexFromDataFiles` restricted to a single data file (the case the
batch claims exercise): scan the file, then fold the replay step. -/
def loadIndexFromFile (fileId : Nat) (content : Bytes) : Option ReplayState :=
  (scanFile fileId content).map replayEntries

/-- Entries of the stash whose sequence differs from `s`. -/
def stashScrub (s : Nat) (st : TxnStash) : TxnStash :=
  st.filter (fun p => p.1 != s)

/-! ### DB engine (db.go), write batch (batch.go) and merge (merge.go)

A data file carries its id, write offset and the bytes seen through its
handle; `ioFail` models an IO manager whose writes surface an OS error
(§4.1: errors surface the OS condition and are not recovered at this layer).
A Go `panic` (nil-pointer dereference) is a distinguished error value. -/

structure DataFile where
  fileId : Nat
  writeOff : Nat
  content : Bytes
  ioFail : Bool
deriving DecidableEq

/-- `OpenDataFile`: a handle on the file named by the id, write offset 0. -/
def openDataFile (fileId : Nat) : DataFile :=
  ⟨fileId, 0, [], false⟩

/-- `DataFile.Write`: append through the IO manager, advance `WriteOff` by the
number of bytes written. -/
def dfWrite (df : DataFile) (buf : Bytes) : Except DFErr DataFile :=
  if df.ioFail then .error .ioFailure
  else .ok { df with content := df.content ++ buf, writeOff := df.writeOff + buf.length }

structure Options where
  dataFileSize : Nat
  syncWrites : Bool
  bytesPerSync : Nat
  dataFileMergeRatio : ℚ
deriving DecidableEq

inductive EngineErr where
  | keyIsEmpty
  | keyNotFound
  | indexUpdateFailed
  | dataFileNotFound
  | exceedMaxBatchNum
  | mergeIsProgress
  | mergeRatioUnreached
  | noEnoughSpaceForMerge
  | ioError
  | crcMismatch
  | eofError
  | panicNilPointer
  | outOfFuel
deriving DecidableEq

def dfErrToEngineErr : DFErr → EngineErr
  | .eofReached => .eofError
  | .invalidCrc => .crcMismatch
  | .ioFailure => .ioError
  | .panicked => .panicNilPointer

/-- The engine state (the fields of `DB` the claims exercise; the lock, the
directory handle and the B+tree-only fields carry no logic here). -/
structure DB where
  options : Options
  activeFile : Option DataFile
  olderFiles : List (Nat × DataFile)
  index : Index
  seqNo : Nat
  isMerging : Bool
  bytesWrite : Nat
  reclaimSize : Nat
deriving DecidableEq

def olderPut : List (Nat × DataFile) → Nat → DataFile → List (Nat × DataFile)
  | [], fid, df => [(fid, df)]
  | (k, f) :: rest, fid, df =>
    if k = fid then (fid, df) :: rest else (k, f) :: olderPut rest fid df

def olderGet : List (Nat × DataFile) → Nat → Option DataFile
  | [], _ => none
  | (k, f) :: rest, fid => if k = fid then some f else olderGet rest fid

def natToUint32 (n : Nat) : Nat := n % 2 ^ 32

/-- `setActiveFile`, transcribed as written: the nil test is inverted, so with
no active file the guarded body dereferences the nil pointer (`db.activeFile.FileId`
panics), and with an active file present `initialField` keeps its initial value
0 and data file 0 is opened as the new active file. -/
def setActiveFile (db : DB) : Except EngineErr DB :=
  match db.activeFile with
  | none => .error .panicNilPointer
  | some _ => .ok { db with activeFile := some (openDataFile 0) }

/-- The write half of the append protocol: write the encoded record, advance
the unsynced-byte counter, apply the sync bookkeeping, and return the position.
The `Offset` field reads `db.activeFile.WriteOff` after `Write` advanced it. -/
def appendWriteStep (db : DB) (enc : Bytes) (size : Nat) :
    DB × Except EngineErr LogRecordPos :=
  match db.activeFile with
  | none => (db, .error .panicNilPointer)
  | some af =>
    match dfWrite af enc with
    | .error e => (db, .error (dfErrToEngineErr e))
    | .ok af2 =>
      let db2 := { db with activeFile := some af2, bytesWrite := db.bytesWrite + size }
      let db3 :=
        if (db2.options.syncWrites
              ∨ (db2.options.bytesPerSync > 0 ∧ db2.bytesWrite ≥ db2.options.bytesPerSync))
            ∧ db2.bytesWrite > 0
        then { db2 with bytesWrite := 0 } else db2
      (db3, .ok ⟨af2.fileId, af2.writeOff, natToUint32 size⟩)

/-- The body of `appendLogRecord` after the lazy-create step. -/
def appendLogRecordSized (db : DB) (r : LogRecord) : DB × Except EngineErr LogRecordPos :=
  match db.activeFile with
  | none => (db, .error .panicNilPointer)
  | some af =>
    let encp := encodeLogRecord r
    if af.writeOff + encp.2 > db.options.dataFileSize then
      let db2 := { db with olderFiles := olderPut db.olderFiles af.fileId af }
      match setActiveFile db2 with
      | .error e => (db2, .error e)
      | .ok db3 => appendWriteStep db3 encp.1 encp.2
    else appendWriteStep db encp.1 encp.2

/-- `appendLogRecord` (no-lock append protocol): lazily create the active file,
rotate when `WriteOff + size` would exceed `DataFileSize` (seal the active file,
open a new one), then write. -/
def appendLogRecord (db : DB) (r : LogRecord) : DB × Except EngineErr LogRecordPos :=
  match db.activeFile with
  | none =>
    match setActiveFile db with
    | .error e => (db, .error e)
    | .ok db1 => appendLogRecordSized db1 r
  | some _ => appendLogRecordSized db r

/-- `Put`: non-empty key, append a Normal record under the composite key with
sequence 0, then update the index, counting a superseded position as
reclaimable. -/
def dbPut (db : DB) (key value : Bytes) : DB × Except EngineErr Unit :=
  if key = [] then (db, .error .keyIsEmpty)
  else
    let ap := appendLogRecord db
      ⟨logRecordKeyWithSeq key nonTransactionSeqNo, value, LogRecordNormal⟩
    match ap.2 with
    | .error e => (ap.1, .error e)
    | .ok pos =>
      let pr := idxPut ap.1.index key pos
      let db2 := { ap.1 with index := pr.2 }
      match pr.1 with
      | some old => ({ db2 with reclaimSize := db2.reclaimSize + old.size }, .ok ())
      | none => (db2, .ok ())

/-- `getValueByPosition`, transcribed as written: when the position names the
active file the record is read there; otherwise the sealed map is consulted
and then the function unconditionally returns `ErrDataFileNotFound`, so the
sealed file is never read (the `dataFile == nil` check below it is dead code). -/
def getValueByPosition (db : DB) (pos : LogRecordPos) : Except EngineErr Bytes :=
  match db.activeFile with
  | none => .error .panicNilPointer
  | some af =>
    if af.fileId = pos.fid then
      match readLogRecord af.content (pos.offset : Int) with
      | .error e => .error (dfErrToEngineErr e)
      | .ok rp =>
        if rp.1.rtype = LogRecordDeleted then .error .keyNotFound
        else .ok rp.1.value
    else .error .dataFileNotFound

/-- `Get`: non-empty key, index lookup, then read by position. -/
def dbGet (db : DB) (key : Bytes) : Except EngineErr Bytes :=
  if key = [] then .error .keyIsEmpty
  else
    match idxGet db.index key with
    | none => .error .keyNotFound
    | some pos => getValueByPosition db pos

/-- `Delete`, transcribed as written: absent keys succeed; otherwise a
tombstone is appended — and when that append fails the source does
`return nil`, surfacing success — then the index entry is removed and both
sizes are counted reclaimable. -/
def dbDelete (db : DB) (key : Bytes) : DB × Except EngineErr Unit :=
  if key = [] then (db, .error .keyIsEmpty)
  else
    match idxGet db.index key with
    | none => (db, .ok ())
    | some _ =>
      let ap := appendLogRecord db
        ⟨logRecordKeyWithSeq key nonTransactionSeqNo, [], LogRecordDeleted⟩
      match ap.2 with
      | .error _ => (ap.1, .ok ())
      | .ok pos =>
        let db2 := { ap.1 with reclaimSize := ap.1.reclaimSize + pos.size }
        let dr := idxDelete db2.index key
        let db3 := { db2 with index := dr.2.2 }
        if dr.2.1 then
          match dr.1 with
          | some old => ({ db3 with reclaimSize := db3.reclaimSize + old.size }, .ok ())
          | none => (db3, .ok ())
        else (db3, .error .indexUpdateFailed)

/-! ### Write batch (batch.go) -/

structure WriteBatchOptions where
  maxBatchNum : Nat
  syncWrites : Bool
deriving DecidableEq

/-- A batch: staged mutations keyed by user key.  The Go `map[string]*LogRecord`
is modelled as an association list; commit iterates it in list order (one
determinization of Go map iteration order). -/
structure WriteBatch where
  options : WriteBatchOptions
  pendingWrites : List (Bytes × LogRecord)
deriving DecidableEq

def pendingPut : List (Bytes × LogRecord) → Bytes → LogRecord → List (Bytes × LogRecord)
  | [], k, r => [(k, r)]
  | (k0, r0) :: rest, k, r =>
    if k0 = k then (k, r) :: rest else (k0, r0) :: pendingPut rest k r

/-- `WriteBatch.Put`: stage a Normal record. -/
def wbPut (wb : WriteBatch) (key value : Bytes) : WriteBatch × Except EngineErr Unit :=
  if key = [] then (wb, .error .keyIsEmpty)
  else
    let pw := pendingPut wb.pendingWrites key ⟨key, value, LogRecordNormal⟩
    ({ wb with pendingWrites := pw }, .ok ())

/-- Commit phase one: append every staged record under the batch sequence
number, remembering the returned position per original key. -/
def commitAppendAll (seqNo : Nat) :
    List (Bytes × LogRecord) → DB → DB × Except EngineErr (List (Bytes × LogRecordPos))
  | [], db => (db, .ok [])
  | (k, r) :: rest, db =>
    let ap := appendLogRecord db ⟨logRecordKeyWithSeq r.key seqNo, r.value, r.rtype⟩
    match ap.2 with
    | .error e => (ap.1, .error e)
    | .ok pos =>
      match commitAppendAll seqNo rest ap.1 with
      | (db2, .error e) => (db2, .error e)
      | (db2, .ok ps) => (db2, .ok ((k, pos) :: ps))

/-- Commit phase two: apply the staged mutations to the index (Normal puts,
tombstones delete), accumulating reclaimable sizes of superseded positions. -/
def commitIndexAll :
    List (Bytes × LogRecord) → List (Bytes × LogRecordPos) → Index → Nat → Index × Nat
  | [], _, idx, rec => (idx, rec)
  | (_, r) :: rest, ps, idx, rec =>
    let pos := (idxGet ps r.key).getD ⟨0, 0, 0⟩
    let step : Index × Nat :=
      if r.rtype = LogRecordNormal then
        let pr := idxPut idx r.key pos
        match pr.1 with
        | some old => (pr.2, rec + old.size)
        | none => (pr.2, rec)
      else if r.rtype = LogRecordDeleted then
        let dr := idxDelete idx r.key
        match dr.1 with
        | some old => (dr.2.2, rec + old.size)
        | none => (dr.2.2, rec)
      else (idx, rec)
    commitIndexAll rest ps step.1 step.2

/-- `WriteBatch.Commit`: empty batches return success immediately; oversized
batches fail; otherwise take the next sequence number, append the data records
and the TxnFinished marker, then update the index and clear the batch. -/
def wbCommit (wb : WriteBatch) (db : DB) : DB × WriteBatch × Except EngineErr Unit :=
  if wb.pendingWrites.length = 0 then (db, wb, .ok ())
  else if wb.pendingWrites.length > wb.options.maxBatchNum then
    (db, wb, .error .exceedMaxBatchNum)
  else
    let seqNo := db.seqNo + 1
    let db1 := { db with seqNo := seqNo }
    match commitAppendAll seqNo wb.pendingWrites db1 with
    | (db2, .error e) => (db2, wb, .error e)
    | (db2, .ok ps) =>
      let ap := appendLogRecord db2
        ⟨logRecordKeyWithSeq txnFinKey seqNo, [], LogRecordTxnFinished⟩
      match ap.2 with
      | .error e => (ap.1, wb, .error e)
      | .ok _ =>
        let u := commitIndexAll wb.pendingWrites ps ap.1.index ap.1.reclaimSize
        ({ ap.1 with index := u.1, reclaimSize := u.2 },
         { wb with pendingWrites := [] }, .ok ())

/-! ### Merge (merge.go) -/

/-- Modelled from the spec: `EncodeLogRecordPos` is absent from the provided
sources (only its callers appear); §4.3 specifies the encoding as the three
varints fileId, offset, size concatenated. -/
def encodeLogRecordPos (pos : LogRecordPos) : Bytes :=
  putVarintOfNat pos.fid ++ putVarintOfNat pos.offset ++ putVarintOfNat pos.size

/-- `DataFile.WriteHintRecord`: a Normal record whose key is the user key and
whose value is the encoded position. -/
def writeHintRecord (df : DataFile) (key : Bytes) (pos : LogRecordPos) :
    Except DFErr DataFile :=
  dfWrite df (encodeLogRecord ⟨key, encodeLogRecordPos pos, LogRecordNormal⟩).1

/-- The ASCII bytes of `merge.finished`. -/
def mergeFinishedKey : Bytes := [109, 101, 114, 103, 101, 46, 102, 105, 110, 105, 115, 104, 101, 100]

def natToDecimalBytes (n : Nat) : Bytes := (Nat.toDigits 10 n).map Char.toNat

/-- `Open` on the freshly recreated, empty merge directory: no data files, so
no active file; empty index; `SyncWrites` forced off. -/
def freshMergeDB (opts : Options) : DB :=
  { options := { opts with syncWrites := false }, activeFile := none, olderFiles := [],
    index := [], seqNo := 0, isMerging := false, bytesWrite := 0, reclaimSize := 0 }

def insertByFid (df : DataFile) : List DataFile → List DataFile
  | [] => [df]
  | x :: rest => if df.fileId ≤ x.fileId then df :: x :: rest else x :: insertByFid df rest

def sortByFid (l : List DataFile) : List DataFile := l.foldr insertByFid []

/-- The per-file merge scan: read records in order; a record is live iff the
primary index maps its user key to this file id and this offset.  Live records
are rewritten into the merge engine under sequence 0 and a hint record is
written - with `logRecordPos`, the position in the primary engine, while the
position returned by the merge-engine append is discarded, exactly as in the
source.  Fuel is a model artifact bounding the loop; offsets strictly
increase, so `content.length + 1` suffices. -/
def mergeFileLoop (primary : Index) (df : DataFile) :
    Nat → Nat → DB → DataFile → Except EngineErr (DB × DataFile)
  | 0, _, _, _ => .error .outOfFuel
  | fuel + 1, offset, mergeDB, hint =>
    match readLogRecord df.content (offset : Int) with
    | .error .eofReached => .ok (mergeDB, hint)
    | .error e => .error (dfErrToEngineErr e)
    | .ok rp =>
      match idxGet primary (parseLogRecordKey rp.1.key).1 with
      | some logRecordPos =>
        if logRecordPos.fid = df.fileId ∧ logRecordPos.offset = offset then
          let nk := logRecordKeyWithSeq (parseLogRecordKey rp.1.key).1 nonTransactionSeqNo
          let ap := appendLogRecord mergeDB { rp.1 with key := nk }
          match ap.2 with
          | .error e => .error e
          | .ok _ =>
            match writeHintRecord hint (parseLogRecordKey rp.1.key).1 logRecordPos with
            | .error e => .error (dfErrToEngineErr e)
            | .ok hint2 => mergeFileLoop primary df fuel (offset + rp.2.toNat) ap.1 hint2
        else mergeFileLoop primary df fuel (offset + rp.2.toNat) mergeDB hint
      | none => mergeFileLoop primary df fuel (offset + rp.2.toNat) mergeDB hint

def mergeAllFiles (primary : Index) :
    List DataFile → DB → DataFile → Except EngineErr (DB × DataFile)
  | [], mergeDB, hint => .ok (mergeDB, hint)
  | df :: rest, mergeDB, hint =>
    match mergeFileLoop primary df (df.content.length + 1) 0 mergeDB hint with
    | .error e => .error e
    | .ok p => mergeAllFiles primary rest p.1 p.2

/-- The on-disk products of a completed merge. -/
structure MergeOutcome where
  mergeDB : DB
  hintFile : DataFile
  mergeFinished : DataFile
deriving DecidableEq

/-- `Merge`: preconditions (`isMerging`, reclaim ratio, free disk space — the
directory size and free space are passed in for the two `utils` OS queries;
the source compares float32 ratios; the exact rational comparison
`reclaim/total < ratio` is modelled multiplicatively as
`reclaim * ratio.den < ratio.num * total`), then rotation,
the scan over all sealed files through a fresh merge engine, and the
merge-finished marker.  An engine that has never written returns success with
no outcome, as does the source on a rotation failure (`return nil`). -/
def dbMerge (db : DB) (totalSize availableDiskSize : Nat) :
    DB × Except EngineErr (Option MergeOutcome) :=
  match db.activeFile with
  | none => (db, .ok none)
  | some af0 =>
    if db.isMerging then (db, .error .mergeIsProgress)
    else if (db.reclaimSize : Int) * (db.options.dataFileMergeRatio.den : Int)
        < db.options.dataFileMergeRatio.num * (totalSize : Int) then
      (db, .error .mergeRatioUnreached)
    else if totalSize - db.reclaimSize ≥ availableDiskSize then
      (db, .error .noEnoughSpaceForMerge)
    else
      let db1 := { db with olderFiles := olderPut db.olderFiles af0.fileId af0 }
      match setActiveFile db1 with
      | .error _ => (db1, .ok none)
      | .ok db2 =>
        match db2.activeFile with
        | none => (db2, .error .panicNilPointer)
        | some newActive =>
          let nonMergeFileId := newActive.fileId
          let mergeFiles := sortByFid (db2.olderFiles.map (fun p => p.2))
          match mergeAllFiles db2.index mergeFiles (freshMergeDB db2.options) ⟨0, 0, [], false⟩ with
          | .error e => (db2, .error e)
          | .ok p =>
            match dfWrite ⟨0, 0, [], false⟩
                (encodeLogRecord ⟨mergeFinishedKey,
                  natToDecimalBytes nonMergeFileId, LogRecordNormal⟩).1 with
            | .error e => (db2, .error (dfErrToEngineErr e))
            | .ok fin => (db2, .ok (some ⟨p.1, p.2, fin⟩))

/-! C4 scenario: a write batch committing `Put("x", "1")`, then close and
reopen, rebuilding the index from the single data file. -/

def dbC4start : DB := ⟨⟨1000, false, 0, 0⟩, some ⟨0, 0, [], false⟩, [], [], 0, false, 0, 0⟩

def wbC4 : WriteBatch := ⟨⟨100, true⟩, [([120], ⟨[120], [49], LogRecordNormal⟩)]⟩

/-- The log bytes Commit produced: the data record (offset 0, size 10), then
the TxnFinished marker (offset 10, size 15). -/
def logC4 : Bytes :=
  match (wbCommit wbC4 dbC4start).1.activeFile with
  | some af => af.content
  | none => []

def replayC4 : ReplayState := (loadIndexFromFile 0 logC4).getD ⟨[], [], 0, 0⟩

def dbC4reopen : DB :=
  ⟨dbC4start.options, some ⟨0, logC4.length, logC4, false⟩, [], replayC4.index,
    replayC4.seqNo, false, 0, 0⟩

/-- C5 scenario: one live key `k` with value `v` in the active file. -/
def dbC5 : DB := ⟨⟨1000, false, 0, 0⟩, some ⟨0, 10,
    (encodeLogRecord ⟨logRecordKeyWithSeq [107] 0, [118], LogRecordNormal⟩).1, false⟩, [],
    [([107], ⟨0, 0, 10⟩)], 0, false, 0, 0⟩

/-! C6 scenario: the merge scan step over one live record, run against a merge
engine that does have an active file (id 0), so that the append succeeds and
the hint write is reached; the record lives in primary file 3 at offset 0. -/

def primC6 : Index := [([107], ⟨3, 0, 10⟩)]

def dfC6 : DataFile :=
  ⟨3, 10, (encodeLogRecord ⟨logRecordKeyWithSeq [107] 0, [118], LogRecordNormal⟩).1, false⟩

def mergeDB6 : DB := ⟨⟨1000, false, 0, 0⟩, some ⟨0, 0, [], false⟩, [], [], 0, false, 0, 0⟩

def mergeC6result : Except EngineErr (DB × DataFile) :=
  mergeFileLoop primC6 dfC6 11 0 mergeDB6 ⟨0, 0, [], false⟩

/-! ### Theorems -/

/-! ### Arithmetic facts about the primitives -/

theorem xor_xor_cancel (x m : Nat) : (x ^^^ m) ^^^ m = x := by
  rw [Nat.xor_assoc, Nat.xor_self, Nat.xor_zero]

/-- Chaining `crc32.Update` over two buffers is the checksum of the concatenation. -/
theorem crc32Update_append (c : Nat) (a b : Bytes) :
    crc32Update (crc32Update c a) b = crc32Update c (a ++ b) := by
  unfold crc32Update
  rw [xor_xor_cancel, List.foldl_append]

theorem crc32BitStep_lt (c : Nat) (h : c < 2 ^ 32) : crc32BitStep c < 2 ^ 32 := by
  unfold crc32BitStep
  have hdiv : c / 2 < 2 ^ 32 := lt_of_le_of_lt (Nat.div_le_self c 2) h
  split
  · exact Nat.xor_lt_two_pow hdiv (by norm_num [crc32Poly])
  · exact hdiv

theorem crc32BitStep_iter_lt (n c : Nat) (h : c < 2 ^ 32) : crc32BitStep^[n] c < 2 ^ 32 := by
  induction n generalizing c with
  | zero => simpa using h
  | succ k ih =>
    rw [Function.iterate_succ_apply]
    exact ih _ (crc32BitStep_lt c h)

theorem crc32ByteStep_lt (c b : Nat) (hc : c < 2 ^ 32) (hb : b < 256) :
    crc32ByteStep c b < 2 ^ 32 := by
  unfold crc32ByteStep
  exact crc32BitStep_iter_lt 8 _ (Nat.xor_lt_two_pow hc (lt_trans hb (by norm_num)))

theorem crc32_foldl_lt (p : Bytes) :
    ∀ c, c < 2 ^ 32 → (∀ b ∈ p, b < 256) → p.foldl crc32ByteStep c < 2 ^ 32 := by
  induction p with
  | nil => intro c hc _; simpa using hc
  | cons x xs ih =>
    intro c hc hb
    rw [List.foldl_cons]
    exact ih _ (crc32ByteStep_lt c x hc (hb x (List.mem_cons_self x xs)))
      (fun b hbmem => hb b (List.mem_cons_of_mem x hbmem))

theorem crc32Update_lt (c : Nat) (p : Bytes) (hc : c < 2 ^ 32) (hb : ∀ b ∈ p, b < 256) :
    crc32Update c p < 2 ^ 32 := by
  unfold crc32Update
  exact Nat.xor_lt_two_pow
    (crc32_foldl_lt p _ (Nat.xor_lt_two_pow hc (by norm_num)) hb) (by norm_num)

theorem checksumIEEE_lt (p : Bytes) (hb : ∀ b ∈ p, b < 256) : checksumIEEE p < 2 ^ 32 :=
  crc32Update_lt 0 p (by norm_num) hb

/-! Round trips for the varint and little-endian codecs. -/

theorem putUvarintAux_length (fuel : Nat) :
    ∀ x k, x < 128 ^ (k + 1) → (putUvarintAux fuel x).length ≤ k + 1 := by
  induction fuel with
  | zero => intro x k _; simp [putUvarintAux]
  | succ f ih =>
    intro x k hx
    unfold putUvarintAux
    split
    · simp
    · rename_i hge
      push_neg at hge
      have hk : 1 ≤ k := by
        by_contra hcon
        push_neg at hcon
        interval_cases k
        simp at hx
        omega
      have hdiv : x / 128 < 128 ^ (k - 1 + 1) := by
        rw [Nat.div_lt_iff_lt_mul (by norm_num)]
        calc x < 128 ^ (k + 1) := hx
        _ = 128 ^ (k - 1 + 1) * 128 := by
              rw [← pow_succ]
              congr 1
              omega
      have := ih (x / 128) (k - 1) hdiv
      simp only [List.length_cons]
      omega

theorem putUvarintAux_bytes_lt (fuel : Nat) :
    ∀ x, x < 128 ^ (fuel + 1) → ∀ b ∈ putUvarintAux fuel x, b < 256 := by
  induction fuel with
  | zero =>
    intro x hx b hb
    simp [putUvarintAux] at hb
    subst hb
    simpa using lt_trans hx (by norm_num)
  | succ f ih =>
    intro x hx b hb
    unfold putUvarintAux at hb
    split at hb
    · rename_i hlt
      simp at hb
      omega
    · rename_i hge
      push_neg at hge
      simp only [List.mem_cons] at hb
      rcases hb with hb | hb
      · omega
      · have hdiv : x / 128 < 128 ^ (f + 1) := by
          rw [Nat.div_lt_iff_lt_mul (by norm_num)]
          calc x < 128 ^ (f + 1 + 1) := hx
          _ = 128 ^ (f + 1) * 128 := by rw [pow_succ]
        exact ih (x / 128) hdiv b hb

theorem uvarintAux_putUvarintAux (fuel : Nat) :
    ∀ (x X s i : Nat) (rest : Bytes), x < 128 ^ (fuel + 1) →
      i + (putUvarintAux fuel x).length ≤ 9 →
      uvarintAux (putUvarintAux fuel x ++ rest) X s i
        = (X ||| x <<< s, (i : Int) + (putUvarintAux fuel x).length) := by
  induction fuel with
  | zero =>
    intro x X s i rest hx hlen
    simp only [putUvarintAux, List.cons_append, List.nil_append, List.length_cons,
      List.length_nil] at hlen ⊢
    have hx128 : x < 128 := by simpa using hx
    unfold uvarintAux
    have hi10 : ¬ i = 10 := by omega
    have hi9 : ¬ (i = 9 ∧ x > 1) := by omega
    simp [hi10, hx128, hi9]
  | succ f ih =>
    intro x X s i rest hx hlen
    by_cases hlt : x < 128
    · simp only [putUvarintAux, hlt, if_true, List.cons_append, List.nil_append,
        List.length_cons, List.length_nil] at hlen ⊢
      unfold uvarintAux
      have hi10 : ¬ i = 10 := by omega
      have hi9 : ¬ (i = 9 ∧ x > 1) := by omega
      simp [hi10, hlt, hi9]
    · simp only [putUvarintAux, hlt, if_false, List.cons_append, List.length_cons] at hlen ⊢
      unfold uvarintAux
      have hi10 : ¬ i = 10 := by omega
      have hb : ¬ (x % 128 + 128 < 128) := by omega
      simp only [hi10, if_false, hb]
      have hmod : (x % 128 + 128) % 128 = x % 128 := by omega
      rw [hmod]
      have hdiv : x / 128 < 128 ^ (f + 1) := by
        rw [Nat.div_lt_iff_lt_mul (by norm_num)]
        calc x < 128 ^ (f + 1 + 1) := hx
        _ = 128 ^ (f + 1) * 128 := by rw [pow_succ]
      have hstep := ih (x / 128) (X ||| (x % 128) <<< s) (s + 7) (i + 1) rest hdiv (by omega)
      rw [hstep, Prod.mk.injEq]
      refine ⟨?_, by push_cast; omega⟩
      rw [Nat.or_assoc]
      congr 1
      rw [Nat.shiftLeft_eq, Nat.shiftLeft_eq, Nat.shiftLeft_eq]
      have hle : (x % 128) * 2 ^ s < 2 ^ (s + 7) := by
        have h7 : x % 128 < 2 ^ 7 := by omega
        calc (x % 128) * 2 ^ s < 2 ^ 7 * 2 ^ s :=
              (Nat.mul_lt_mul_right (Nat.pos_pow_of_pos s (by norm_num))).mpr h7
        _ = 2 ^ (s + 7) := by rw [← pow_add, Nat.add_comm]
      have hor := Nat.mul_add_lt_is_or hle (x / 128)
      calc (x % 128) * 2 ^ s ||| x / 128 * 2 ^ (s + 7)
          = 2 ^ (s + 7) * (x / 128) ||| (x % 128) * 2 ^ s := by
            rw [Nat.or_comm, Nat.mul_comm (x / 128) (2 ^ (s + 7))]
      _ = 2 ^ (s + 7) * (x / 128) + (x % 128) * 2 ^ s := (hor).symm
      _ = x * 2 ^ s := by
            have hxdm : 128 * (x / 128) + x % 128 = x := Nat.div_add_mod x 128
            calc 2 ^ (s + 7) * (x / 128) + (x % 128) * 2 ^ s
                = (128 * (x / 128) + x % 128) * 2 ^ s := by
                  rw [pow_add]
                  ring
            _ = x * 2 ^ s := by rw [hxdm]

theorem uvarintDecode_putUvarint (x : Nat) (rest : Bytes) (hx : x < 2 ^ 32) :
    uvarintDecode (putUvarint x ++ rest) = (x, ((putUvarint x).length : Int)) := by
  have hx35 : x < 128 ^ (4 + 1) := lt_trans hx (by norm_num)
  have hx70 : x < 128 ^ (9 + 1) := lt_trans hx (by norm_num)
  have hlen : (putUvarintAux 9 x).length ≤ 5 := putUvarintAux_length 9 x 4 hx35
  unfold uvarintDecode putUvarint
  rw [uvarintAux_putUvarintAux 9 x 0 0 0 rest hx70 (by omega)]
  simp [putUvarint]

theorem varintDecode_putVarintOfNat (x : Nat) (rest : Bytes) (hx : x < 2 ^ 31) :
    varintDecode (putVarintOfNat x ++ rest)
      = ((x : Int), ((putVarintOfNat x).length : Int)) := by
  unfold varintDecode putVarintOfNat
  rw [uvarintDecode_putUvarint (2 * x) rest (by omega)]
  have hmod : (2 * x) % 2 = 0 := by omega
  have hshift : ((2 * x) >>> 1 : Nat) = x := by
    rw [Nat.shiftRight_eq_div_pow]
    omega
  simp [hmod, hshift]

theorem putVarintOfNat_length_le (x : Nat) (hx : x < 2 ^ 31) :
    (putVarintOfNat x).length ≤ 5 := by
  unfold putVarintOfNat putUvarint
  exact putUvarintAux_length 9 (2 * x) 4 (by norm_num; omega)

theorem putVarintOfNat_bytes_lt (x : Nat) (hx : x < 2 ^ 31) :
    ∀ b ∈ putVarintOfNat x, b < 256 := by
  unfold putVarintOfNat putUvarint
  exact putUvarintAux_bytes_lt 9 (2 * x) (by norm_num; omega)

theorem readUint32LE_putUint32LE (v : Nat) (rest : Bytes) (hv : v < 2 ^ 32) :
    readUint32LE (putUint32LE v ++ rest) = v := by
  unfold readUint32LE putUint32LE
  simp only [List.cons_append, List.getD_cons_zero, List.getD_cons_succ]
  rw [Nat.shiftLeft_eq, Nat.shiftLeft_eq, Nat.shiftLeft_eq]
  rw [Nat.shiftRight_eq_div_pow, Nat.shiftRight_eq_div_pow, Nat.shiftRight_eq_div_pow]
  have h1 : v % 256 ||| v / 2 ^ 8 % 256 * 2 ^ 8 = v % 256 + v / 2 ^ 8 % 256 * 2 ^ 8 := by
    have e := Nat.mul_add_lt_is_or (show v % 256 < 2 ^ 8 by omega) (v / 2 ^ 8 % 256)
    rw [Nat.or_comm, Nat.mul_comm (v / 2 ^ 8 % 256) (2 ^ 8), ← e]
    omega
  rw [h1]
  have h2 : v % 256 + v / 2 ^ 8 % 256 * 2 ^ 8 ||| v / 2 ^ 16 % 256 * 2 ^ 16
      = v % 256 + v / 2 ^ 8 % 256 * 2 ^ 8 + v / 2 ^ 16 % 256 * 2 ^ 16 := by
    have e := Nat.mul_add_lt_is_or
      (show v % 256 + v / 2 ^ 8 % 256 * 2 ^ 8 < 2 ^ 16 by omega) (v / 2 ^ 16 % 256)
    rw [Nat.or_comm, Nat.mul_comm (v / 2 ^ 16 % 256) (2 ^ 16), ← e]
    omega
  rw [h2]
  have h3 : v % 256 + v / 2 ^ 8 % 256 * 2 ^ 8 + v / 2 ^ 16 % 256 * 2 ^ 16
        ||| v / 2 ^ 24 % 256 * 2 ^ 24
      = v % 256 + v / 2 ^ 8 % 256 * 2 ^ 8 + v / 2 ^ 16 % 256 * 2 ^ 16
        + v / 2 ^ 24 % 256 * 2 ^ 24 := by
    have e := Nat.mul_add_lt_is_or
      (show v % 256 + v / 2 ^ 8 % 256 * 2 ^ 8 + v / 2 ^ 16 % 256 * 2 ^ 16 < 2 ^ 24 by omega)
      (v / 2 ^ 24 % 256)
    rw [Nat.or_comm, Nat.mul_comm (v / 2 ^ 24 % 256) (2 ^ 24), ← e]
    omega
  rw [h3]
  omega

theorem putUint32LE_bytes_lt (v : Nat) : ∀ b ∈ putUint32LE v, b < 256 := by
  intro b hb
  simp [putUint32LE] at hb
  rcases hb with h | h | h | h <;> omega

theorem encodeLogRecord_snd (r : LogRecord) :
    (encodeLogRecord r).2 = (encodeLogRecord r).1.length := by
  simp [encodeLogRecord, putUint32LE]
  omega

theorem intToUint32_ofNat (n : Nat) (h : n < 2 ^ 32) : intToUint32 (n : Int) = n := by
  unfold intToUint32
  rw [Int.emod_eq_of_lt (by positivity) (by exact_mod_cast h)]
  simp

theorem putVarintOfNat_zero : putVarintOfNat 0 = [0] := by decide

theorem putVarintOfNat_length_pos (x : Nat) : 1 ≤ (putVarintOfNat x).length := by
  unfold putVarintOfNat putUvarint putUvarintAux
  split <;> simp

/-- Decoding the header laid out by `EncodeLogRecord` recovers the CRC, the
type tag and both sizes, and reports the exact header length. -/
theorem decodeLogRecordHeader_encoded (crcv t kl vl : Nat) (T : Bytes)
    (hc : crcv < 2 ^ 32) (hkl : kl < 2 ^ 31) (hvl : vl < 2 ^ 31) :
    decodeLogRecordHeader
        (putUint32LE crcv ++ t :: (putVarintOfNat kl ++ (putVarintOfNat vl ++ T)))
      = some (⟨crcv, t, kl, vl⟩,
          ((5 + (putVarintOfNat kl).length + (putVarintOfNat vl).length : Nat) : Int)) := by
  have h1 : (putUint32LE crcv ++ t :: (putVarintOfNat kl ++ (putVarintOfNat vl ++ T))).drop 5
      = putVarintOfNat kl ++ (putVarintOfNat vl ++ T) := by
    simp [putUint32LE]
  have h2 := varintDecode_putVarintOfNat kl (putVarintOfNat vl ++ T) hkl
  have h3 : (putUint32LE crcv ++ t :: (putVarintOfNat kl ++ (putVarintOfNat vl ++ T))).drop
        (((5 : Int) + ((putVarintOfNat kl).length : Int)).toNat) = putVarintOfNat vl ++ T := by
    rw [show (((5 : Int) + ((putVarintOfNat kl).length : Int)).toNat)
        = 5 + (putVarintOfNat kl).length from by omega]
    rw [← List.drop_drop, h1, List.drop_left]
  have h4 := varintDecode_putVarintOfNat vl T hvl
  have hcrc : readUint32LE
      (putUint32LE crcv ++ t :: (putVarintOfNat kl ++ (putVarintOfNat vl ++ T))) = crcv :=
    readUint32LE_putUint32LE crcv _ hc
  have hgetD : (putUint32LE crcv ++ t :: (putVarintOfNat kl ++ (putVarintOfNat vl ++ T))).getD
      4 0 = t := by
    simp [putUint32LE]
  unfold decodeLogRecordHeader
  rw [if_neg (by
    simp only [putUint32LE, List.cons_append, List.nil_append, List.length_cons,
      List.length_append]
    omega)]
  rw [h1, h2]
  simp only [h3, h4, hcrc, hgetD, intToUint32_ofNat kl (by omega),
    intToUint32_ofNat vl (by omega), Option.some.injEq, Prod.mk.injEq]
  refine ⟨trivial, ?_⟩
  push_cast
  omega

/-- Claim C8 core: reading back the bytes produced by `EncodeLogRecord` at the
record's start offset yields the same key, value and type, passes the CRC
check, and reports the full encoded size. -/
theorem readLogRecord_roundtrip (r : LogRecord) (pre post : Bytes)
    (hk : r.key.length < 2 ^ 31) (hv : r.value.length < 2 ^ 31)
    (ht : r.rtype < 3)
    (hkb : ∀ b ∈ r.key, b < 256) (hvb : ∀ b ∈ r.value, b < 256) :
    readLogRecord (pre ++ (encodeLogRecord r).1 ++ post) ((pre.length : Int))
      = .ok (r, ((encodeLogRecord r).1.length : Int)) := by
  obtain ⟨key, value, t⟩ := r
  simp only at hk hv ht hkb hvb
  set kl := key.length with hkl
  set vl := value.length with hvl
  set pk := putVarintOfNat kl with hpk
  set pvv := putVarintOfNat vl with hpvv
  set body := (t :: (pk ++ pvv)) ++ key ++ value with hbody
  set crcv := checksumIEEE body with hcrcv
  have henc : (encodeLogRecord ⟨key, value, t⟩).1 = putUint32LE crcv ++ body := rfl
  have hbodyBytes : ∀ b ∈ body, b < 256 := by
    intro b hb
    rw [hbody] at hb
    simp only [List.append_assoc, List.cons_append, List.mem_cons, List.mem_append] at hb
    rcases hb with hb | hb | hb | hb | hb
    · omega
    · exact putVarintOfNat_bytes_lt kl hk b hb
    · exact putVarintOfNat_bytes_lt vl hv b hb
    · exact hkb b hb
    · exact hvb b hb
  have hcrcLt : crcv < 2 ^ 32 := checksumIEEE_lt body hbodyBytes
  have hn1 : pk.length ≤ 5 := putVarintOfNat_length_le kl hk
  have hn2 : pvv.length ≤ 5 := putVarintOfNat_length_le vl hv
  have hn1p : 1 ≤ pk.length := putVarintOfNat_length_pos kl
  have hn2p : 1 ≤ pvv.length := putVarintOfNat_length_pos vl
  set hdrLen := 5 + pk.length + pvv.length with hhdrLen
  set H := putUint32LE crcv ++ (t :: (pk ++ pvv)) with hH
  have hHlen : H.length = hdrLen := by
    simp [hH, putUint32LE, hhdrLen]
    omega
  set enc := putUint32LE crcv ++ body with hencEq
  have hencLen : enc.length = hdrLen + kl + vl := by
    simp [hencEq, hbody, putUint32LE, hhdrLen]
    omega
  have hsplit : enc ++ post = H ++ (key ++ (value ++ post)) := by
    simp [hencEq, hH, hbody, List.append_assoc]
  have hfile : pre ++ enc ++ post = pre ++ (enc ++ post) := by
    simp [List.append_assoc]
  set hbn := min maxLogRecordHeaderSize (enc.length + post.length) with hhbn
  have hdr_le_hbn : hdrLen ≤ hbn := by
    have h15 : hdrLen ≤ maxLogRecordHeaderSize := by
      simp [hhdrLen, maxLogRecordHeaderSize]
      omega
    have hlen2 : hdrLen ≤ enc.length + post.length := by omega
    omega
  -- the walk through readLogRecord, stage by stage
  rw [henc]
  have hwin : (if (pre.length : Int) + (maxLogRecordHeaderSize : Int)
        > (((pre ++ enc ++ post).length : Nat) : Int)
      then (((pre ++ enc ++ post).length : Nat) : Int) - (pre.length : Int)
      else (maxLogRecordHeaderSize : Int)) = ((hbn : Nat) : Int) := by
    have hflen : (pre ++ enc ++ post).length = pre.length + enc.length + post.length := by
      simp only [List.length_append]
    rw [hflen, hhbn]
    simp only [maxLogRecordHeaderSize]
    split <;> rename_i hcase <;> push_cast at hcase ⊢ <;> omega
  have hread1 : readNBytes (pre ++ enc ++ post) hbn ((pre.length : Int))
      = .ok ((enc ++ post).take hbn) := by
    unfold readNBytes
    rw [if_neg (by omega)]
    rw [if_pos (by
      simp only [Int.toNat_ofNat, List.length_append]
      omega)]
    congr 1
    rw [hfile]
    simp only [Int.toNat_ofNat]
    rw [List.drop_left]
  set T := (key ++ (value ++ post)).take (hbn - hdrLen) with hT
  have hbufEq : (enc ++ post).take hbn
      = putUint32LE crcv ++ t :: (pk ++ (pvv ++ T)) := by
    rw [hsplit, List.take_append_eq_append_take, hHlen,
      List.take_of_length_le (show H.length ≤ hbn from by rw [hHlen]; exact hdr_le_hbn),
      ← hT, hH]
    simp [List.append_assoc]
  have hdec := decodeLogRecordHeader_encoded crcv t kl vl T hcrcLt hk hv
  rw [← hpk, ← hpvv, ← hhdrLen] at hdec
  have hcrc3 : checksumIEEE [t, 0, 0] ≠ 0 := by
    interval_cases t <;> decide
  have hzero : ¬ (crcv = 0 ∧ kl = 0 ∧ vl = 0) := by
    rintro ⟨hc0, hk0, hv0⟩
    have hkey0 : key = [] := by
      have hlz : key.length = 0 := by rw [← hkl]; exact hk0
      exact List.length_eq_zero.mp hlz
    have hval0 : value = [] := by
      have hlz : value.length = 0 := by rw [← hvl]; exact hv0
      exact List.length_eq_zero.mp hlz
    have hbig : crcv = checksumIEEE [t, 0, 0] := by
      rw [hcrcv, hbody, hkey0, hval0, hpk, hpvv, hk0, hv0, putVarintOfNat_zero]
      simp
    exact hcrc3 (by rw [← hbig]; exact hc0)
  have hblen : (putUint32LE crcv ++ t :: (pk ++ (pvv ++ T))).length = hdrLen + T.length := by
    simp only [putUint32LE, List.cons_append, List.nil_append, List.length_cons,
      List.length_append, hhdrLen]
    omega
  have hbounds : ¬ (((hdrLen : Nat) : Int) < 4
      ∨ (((putUint32LE crcv ++ t :: (pk ++ (pvv ++ T))).length : Nat) : Int)
        < ((hdrLen : Nat) : Int)) := by
    rw [hblen]
    push_cast
    omega
  have hslice : ((putUint32LE crcv ++ t :: (pk ++ (pvv ++ T))).take
      (((hdrLen : Nat) : Int)).toNat).drop 4 = t :: (pk ++ pvv) := by
    rw [Int.toNat_ofNat, List.take_append_eq_append_take,
      List.take_of_length_le
        (show (putUint32LE crcv).length ≤ hdrLen from by simp [putUint32LE]; omega),
      show hdrLen - (putUint32LE crcv).length = pk.length + pvv.length + 1 from by
        simp [putUint32LE]; omega,
      List.take_succ_cons, List.take_append_eq_append_take,
      List.take_of_length_le (show pk.length ≤ pk.length + pvv.length from by omega),
      show pk.length + pvv.length - pk.length = pvv.length from by omega,
      List.take_left, List.drop_left' (show (putUint32LE crcv).length = 4 from by
        simp [putUint32LE])]
  have hfile2 : pre ++ enc ++ post = (pre ++ H) ++ (key ++ (value ++ post)) := by
    rw [hfile, hsplit]
    simp [List.append_assoc]
  have hkvread : readNBytes (pre ++ enc ++ post) (kl + vl)
      ((pre.length : Int) + ((hdrLen : Nat) : Int)) = .ok (key ++ value) := by
    unfold readNBytes
    rw [if_neg (by omega)]
    rw [if_pos (by
      simp only [List.length_append]
      omega)]
    congr 1
    rw [hfile2]
    have htn2 : ((pre.length : Int) + ((hdrLen : Nat) : Int)).toNat
        = (pre ++ H).length := by
      simp only [List.length_append, hHlen]
      omega
    rw [htn2, List.drop_left]
    rw [List.take_append_eq_append_take, List.take_of_length_le (by omega)]
    rw [show kl + vl - key.length = vl from by omega]
    rw [List.take_append_eq_append_take, List.take_of_length_le (by omega)]
    rw [show vl - value.length = 0 from by omega]
    simp
  simp only [readLogRecord]
  rw [hwin]
  rw [if_neg (show ¬ (((hbn : Nat) : Int) < 0) from by omega)]
  rw [Int.toNat_ofNat]
  simp only [hread1]
  rw [hbufEq]
  simp only [hdec]
  rw [if_neg hzero]
  by_cases hkv0 : 0 < kl ∨ 0 < vl
  · rw [if_pos hkv0]
    simp only [hkvread]
    rw [List.take_left' hkl.symm, List.drop_left' hkl.symm]
    rw [if_neg hbounds]
    rw [hslice]
    have hcrcEq : getLogRecordCRC ⟨key, value, t⟩ (t :: (pk ++ pvv)) = crcv := by
      rw [hcrcv, hbody]
      unfold getLogRecordCRC checksumIEEE
      rw [crc32Update_append, crc32Update_append, List.append_assoc]
    rw [hcrcEq]
    rw [if_neg (by simp)]
    have hfin : ((hdrLen : Nat) : Int) + ((kl : Nat) : Int) + ((vl : Nat) : Int)
        = ((enc.length : Nat) : Int) := by
      rw [hencLen]
      push_cast
      omega
    rw [hfin]
  · push_neg at hkv0
    rw [if_neg (by omega)]
    have hkey0 : key = [] := by
      have hlz : key.length = 0 := by rw [← hkl]; omega
      exact List.length_eq_zero.mp hlz
    have hval0 : value = [] := by
      have hlz : value.length = 0 := by rw [← hvl]; omega
      exact List.length_eq_zero.mp hlz
    simp only []
    rw [if_neg hbounds]
    rw [hslice]
    have hcrcEq : getLogRecordCRC ⟨([] : Bytes), ([] : Bytes), t⟩ (t :: (pk ++ pvv)) = crcv := by
      rw [hcrcv, hbody, hkey0, hval0]
      unfold getLogRecordCRC checksumIEEE
      rw [crc32Update_append, crc32Update_append, List.append_assoc]
    rw [hcrcEq]
    rw [if_neg (by simp)]
    have hfin : ((hdrLen : Nat) : Int) + ((kl : Nat) : Int) + ((vl : Nat) : Int)
        = ((enc.length : Nat) : Int) := by
      rw [hencLen]
      push_cast
      omega
    rw [hfin, hkey0, hval0]

theorem stashScrub_nil (s : Nat) : stashScrub s [] = [] := rfl

theorem stashScrub_cons_eq (s : Nat) (l : List TransactionRecord) (rest : TxnStash) :
    stashScrub s ((s, l) :: rest) = stashScrub s rest := by
  simp [stashScrub]

theorem stashScrub_cons_ne (s k : Nat) (hk : k ≠ s) (l : List TransactionRecord)
    (rest : TxnStash) :
    stashScrub s ((k, l) :: rest) = (k, l) :: stashScrub s rest := by
  simp [stashScrub, hk]

theorem stashGet_scrub (s t2 : Nat) (h : t2 ≠ s) :
    ∀ st : TxnStash, stashGet (stashScrub s st) t2 = stashGet st t2 := by
  intro st
  induction st with
  | nil => rfl
  | cons p rest ih =>
    obtain ⟨k, l⟩ := p
    by_cases hk : k = s
    · subst hk
      rw [stashScrub_cons_eq, ih]
      have hne : ¬ (k = t2) := fun he => h he.symm
      simp only [stashGet, if_neg hne]
    · rw [stashScrub_cons_ne s k hk]
      by_cases hkt : k = t2
      · simp only [stashGet, if_pos hkt]
      · simp only [stashGet, if_neg hkt, ih]

theorem stashScrub_append_self (s : Nat) (tr : TransactionRecord) :
    ∀ st : TxnStash, stashScrub s (stashAppend st s tr) = stashScrub s st := by
  intro st
  induction st with
  | nil =>
    rw [show stashAppend [] s tr = [(s, [tr])] from rfl, stashScrub_cons_eq, stashScrub_nil]
  | cons p rest ih =>
    obtain ⟨k, l⟩ := p
    by_cases hk : k = s
    · subst hk
      rw [show stashAppend ((k, l) :: rest) k tr = (k, l ++ [tr]) :: rest from by
        simp [stashAppend]]
      rw [stashScrub_cons_eq, stashScrub_cons_eq]
    · rw [show stashAppend ((k, l) :: rest) s tr = (k, l) :: stashAppend rest s tr from by
        simp [stashAppend, hk]]
      rw [stashScrub_cons_ne s k hk, stashScrub_cons_ne s k hk, ih]

theorem stashScrub_append_comm (s t2 : Nat) (h : t2 ≠ s) (tr : TransactionRecord) :
    ∀ st : TxnStash, stashScrub s (stashAppend st t2 tr)
      = stashAppend (stashScrub s st) t2 tr := by
  intro st
  induction st with
  | nil =>
    rw [show stashAppend [] t2 tr = [(t2, [tr])] from rfl, stashScrub_nil,
      show stashAppend [] t2 tr = [(t2, [tr])] from rfl, stashScrub_cons_ne s t2 h,
      stashScrub_nil]
  | cons p rest ih =>
    obtain ⟨k, l⟩ := p
    by_cases hk : k = s
    · subst hk
      have hne : ¬ (k = t2) := fun he => h (he.symm)
      rw [show stashAppend ((k, l) :: rest) t2 tr = (k, l) :: stashAppend rest t2 tr from by
        simp [stashAppend, hne]]
      rw [stashScrub_cons_eq, stashScrub_cons_eq, ih]
    · by_cases hkt : k = t2
      · subst hkt
        rw [show stashAppend ((k, l) :: rest) k tr = (k, l ++ [tr]) :: rest from by
          simp [stashAppend]]
        rw [stashScrub_cons_ne s k hk, stashScrub_cons_ne s k hk,
          show stashAppend ((k, l) :: stashScrub s rest) k tr
            = (k, l ++ [tr]) :: stashScrub s rest from by simp [stashAppend]]
      · rw [show stashAppend ((k, l) :: rest) t2 tr = (k, l) :: stashAppend rest t2 tr from by
          simp [stashAppend, hkt]]
        rw [stashScrub_cons_ne s k hk, stashScrub_cons_ne s k hk, ih,
          show stashAppend ((k, l) :: stashScrub s rest) t2 tr
            = (k, l) :: stashAppend (stashScrub s rest) t2 tr from by
          simp [stashAppend, hkt]]

theorem stashScrub_erase_comm (s t2 : Nat) (h : t2 ≠ s) :
    ∀ st : TxnStash, stashScrub s (stashErase st t2)
      = stashErase (stashScrub s st) t2 := by
  intro st
  induction st with
  | nil => rfl
  | cons p rest ih =>
    obtain ⟨k, l⟩ := p
    by_cases hk : k = s
    · subst hk
      have hne : ¬ (k = t2) := fun he => h (he.symm)
      rw [show stashErase ((k, l) :: rest) t2 = (k, l) :: stashErase rest t2 from by
        simp [stashErase, hne]]
      rw [stashScrub_cons_eq, stashScrub_cons_eq, ih]
    · by_cases hkt : k = t2
      · subst hkt
        rw [show stashErase ((k, l) :: rest) k = rest from by simp [stashErase]]
        rw [stashScrub_cons_ne s k hk,
          show stashErase ((k, l) :: stashScrub s rest) k = stashScrub s rest from by
          simp [stashErase]]
      · rw [show stashErase ((k, l) :: rest) t2 = (k, l) :: stashErase rest t2 from by
          simp [stashErase, hkt]]
        rw [stashScrub_cons_ne s k hk, stashScrub_cons_ne s k hk, ih,
          show stashErase ((k, l) :: stashScrub s rest) t2
            = (k, l) :: stashErase (stashScrub s rest) t2 from by
          simp [stashErase, hkt]]

theorem updateIndex_fst_indep (idx : Index) (r1 r2 : Nat) (key : Bytes) (typ : Nat)
    (pos : LogRecordPos) :
    (updateIndex idx r1 key typ pos).1 = (updateIndex idx r2 key typ pos).1 := by
  unfold updateIndex
  by_cases h : typ = LogRecordDeleted
  · simp only [if_pos h]
    cases h2 : (idxDelete idx key).1 <;> simp [h2]
  · simp only [if_neg h]
    cases h2 : (idxPut idx key pos).1 <;> simp [h2]

theorem txnFold_fst_indep (pos : LogRecordPos) :
    ∀ (txns : List TransactionRecord) (idx : Index) (r1 r2 : Nat),
      (txns.foldl (fun acc tr => updateIndex acc.1 acc.2 tr.record.key tr.record.rtype pos)
        (idx, r1)).1
      = (txns.foldl (fun acc tr => updateIndex acc.1 acc.2 tr.record.key tr.record.rtype pos)
        (idx, r2)).1 := by
  intro txns
  induction txns with
  | nil => intro idx r1 r2; rfl
  | cons tr rest ih =>
    intro idx r1 r2
    simp only [List.foldl_cons]
    have h1 := updateIndex_fst_indep idx r1 r2 tr.record.key tr.record.rtype pos
    have e1 : updateIndex idx r1 tr.record.key tr.record.rtype pos
        = ((updateIndex idx r1 tr.record.key tr.record.rtype pos).1,
           (updateIndex idx r1 tr.record.key tr.record.rtype pos).2) := rfl
    have e2 : updateIndex idx r2 tr.record.key tr.record.rtype pos
        = ((updateIndex idx r2 tr.record.key tr.record.rtype pos).1,
           (updateIndex idx r2 tr.record.key tr.record.rtype pos).2) := rfl
    rw [e1, e2, h1]
    exact ih _ _ _

/-- One replay step preserves the relation "same index, same stash away from
sequence `s`", provided the step is not the commit marker of `s` itself. -/
theorem replayStep_rel (s : Nat) (e : LogRecord × LogRecordPos)
    (he : ¬ ((parseLogRecordKey e.1.key).2 = s ∧ e.1.rtype = LogRecordTxnFinished))
    (a b : ReplayState) (hidx : a.index = b.index)
    (hst : stashScrub s a.stash = stashScrub s b.stash) :
    (replayStep a e).index = (replayStep b e).index
    ∧ stashScrub s (replayStep a e).stash = stashScrub s (replayStep b e).stash := by
  unfold replayStep
  by_cases h0 : (parseLogRecordKey e.1.key).2 = nonTransactionSeqNo
  · simp only [if_pos h0]
    have hcore : (updateIndex a.index a.reclaim (parseLogRecordKey e.1.key).1 e.1.rtype e.2).1
        = (updateIndex b.index b.reclaim (parseLogRecordKey e.1.key).1 e.1.rtype e.2).1 := by
      rw [hidx]
      exact updateIndex_fst_indep b.index a.reclaim b.reclaim _ e.1.rtype e.2
    constructor
    · split <;> split <;> simpa using hcore
    · split <;> split <;> simpa using hst
  · simp only [if_neg h0]
    by_cases hfin : e.1.rtype = LogRecordTxnFinished
    · simp only [if_pos hfin]
      have hs2 : (parseLogRecordKey e.1.key).2 ≠ s := fun hcon => he ⟨hcon, hfin⟩
      have hget : stashGet a.stash (parseLogRecordKey e.1.key).2
          = stashGet b.stash (parseLogRecordKey e.1.key).2 := by
        rw [← stashGet_scrub s _ hs2 a.stash, ← stashGet_scrub s _ hs2 b.stash, hst]
      have hcore : ((stashGet a.stash (parseLogRecordKey e.1.key).2).foldl
            (fun acc tr => updateIndex acc.1 acc.2 tr.record.key tr.record.rtype e.2)
            (a.index, a.reclaim)).1
          = ((stashGet b.stash (parseLogRecordKey e.1.key).2).foldl
            (fun acc tr => updateIndex acc.1 acc.2 tr.record.key tr.record.rtype e.2)
            (b.index, b.reclaim)).1 := by
        rw [hget, hidx]
        exact txnFold_fst_indep e.2 _ b.index a.reclaim b.reclaim
      have hstErase : stashScrub s (stashErase a.stash (parseLogRecordKey e.1.key).2)
          = stashScrub s (stashErase b.stash (parseLogRecordKey e.1.key).2) := by
        rw [stashScrub_erase_comm s _ hs2, stashScrub_erase_comm s _ hs2, hst]
      constructor
      · split <;> split <;> simpa using hcore
      · split <;> split <;> simpa using hstErase
    · simp only [if_neg hfin]
      have hstApp : stashScrub s (stashAppend a.stash (parseLogRecordKey e.1.key).2
            ⟨{ e.1 with key := (parseLogRecordKey e.1.key).1 }, e.2⟩)
          = stashScrub s (stashAppend b.stash (parseLogRecordKey e.1.key).2
            ⟨{ e.1 with key := (parseLogRecordKey e.1.key).1 }, e.2⟩) := by
        by_cases hseq : (parseLogRecordKey e.1.key).2 = s
        · rw [hseq, stashScrub_append_self, stashScrub_append_self, hst]
        · rw [stashScrub_append_comm s _ hseq, stashScrub_append_comm s _ hseq, hst]
      constructor
      · split <;> split <;> simpa using hidx
      · split <;> split <;> simpa using hstApp

theorem replay_fold_rel (s : Nat) :
    ∀ (l : List (LogRecord × LogRecordPos)) (a b : ReplayState),
      (∀ e ∈ l, ¬ ((parseLogRecordKey e.1.key).2 = s ∧ e.1.rtype = LogRecordTxnFinished)) →
      a.index = b.index → stashScrub s a.stash = stashScrub s b.stash →
      (l.foldl replayStep a).index = (l.foldl replayStep b).index := by
  intro l
  induction l with
  | nil =>
    intro a b _ hidx _
    exact hidx
  | cons e rest ih =>
    intro a b hl hidx hst
    simp only [List.foldl_cons]
    obtain ⟨h1, h2⟩ := replayStep_rel s e (hl e (List.mem_cons_self e rest)) a b hidx hst
    exact ih _ _ (fun x hx => hl x (List.mem_cons_of_mem _ hx)) h1 h2

/-! ### Claim theorems -/

/-- C1: the append protocol (used by Put, Delete and batch Commit) returns a
position whose `Offset` is the active file's write offset read AFTER the bytes
were written — `writeOffBefore + size` — and the encoded size is positive, so
the returned offset is never the offset of the record's first byte.  This
refutes the claim that the offset is captured before the append. -/
theorem claim_C1_offset_after_append (db : DB) (af : DataFile) (r : LogRecord)
    (ha : db.activeFile = some af) (hio : af.ioFail = false)
    (hfit : af.writeOff + (encodeLogRecord r).2 ≤ db.options.dataFileSize) :
    (appendLogRecord db r).2
        = .ok ⟨af.fileId, af.writeOff + (encodeLogRecord r).2,
            natToUint32 (encodeLogRecord r).2⟩
      ∧ 0 < (encodeLogRecord r).2 := by
  have hsize : (encodeLogRecord r).2 = (encodeLogRecord r).1.length := encodeLogRecord_snd r
  constructor
  · simp only [appendLogRecord, ha]
    simp only [appendLogRecordSized, ha]
    rw [if_neg (by omega)]
    simp only [appendWriteStep, ha]
    simp only [dfWrite, hio]
    simp only [Bool.false_eq_true, if_false]
    rw [← hsize]
  · simp only [encodeLogRecord]
    omega

theorem claim_C1_witness :
    (appendLogRecord ⟨⟨100, false, 0, 0⟩, some ⟨0, 0, [], false⟩, [], [], 0, false, 0, 0⟩
        ⟨[107], [118], LogRecordNormal⟩).2
      = .ok ⟨0, 0 + (encodeLogRecord ⟨[107], [118], LogRecordNormal⟩).2,
          natToUint32 (encodeLogRecord ⟨[107], [118], LogRecordNormal⟩).2⟩
    ∧ 0 < (encodeLogRecord ⟨[107], [118], LogRecordNormal⟩).2 :=
  claim_C1_offset_after_append
    ⟨⟨100, false, 0, 0⟩, some ⟨0, 0, [], false⟩, [], [], 0, false, 0, 0⟩
    ⟨0, 0, [], false⟩ ⟨[107], [118], LogRecordNormal⟩ rfl rfl (by decide)

/-- C2: when the index maps a key to a position in a sealed file (any fileId
other than the active file's, as after reopening a rotated log), Get returns
`ErrDataFileNotFound` instead of dispatching to the sealed file and returning
the stored value; the claim that Get serves keys from sealed files fails. -/
theorem claim_C2_sealed_get_fails (db : DB) (key : Bytes) (pos : LogRecordPos)
    (af : DataFile) (hk : key ≠ []) (hidx : idxGet db.index key = some pos)
    (ha : db.activeFile = some af) (hfid : af.fileId ≠ pos.fid) :
    dbGet db key = .error .dataFileNotFound := by
  unfold dbGet
  rw [if_neg hk]
  simp only [hidx]
  simp only [getValueByPosition, ha]
  rw [if_neg hfid]

theorem claim_C2_witness :
    dbGet ⟨⟨1000, false, 0, 0⟩, some ⟨1, 0, [], false⟩,
        [(0, ⟨0, 10, (encodeLogRecord ⟨logRecordKeyWithSeq [107] 0, [118],
          LogRecordNormal⟩).1, false⟩)],
        [([107], ⟨0, 0, 10⟩)], 0, false, 0, 0⟩ [107]
      = .error .dataFileNotFound :=
  claim_C2_sealed_get_fails _ [107] ⟨0, 0, 10⟩ ⟨1, 0, [], false⟩
    (by decide) rfl rfl (by decide)

/-- C3: `setActiveFile` has its nil test inverted, so lazily creating the first
data file dereferences the nil active-file pointer (a panic) instead of
opening fileId 0, and rotation opens fileId 0 again instead of the previous
fileId + 1.  Both halves of the claim fail on the code. -/
theorem claim_C3_setActiveFile_broken (db : DB) :
    (db.activeFile = none → setActiveFile db = .error .panicNilPointer)
    ∧ (∀ af, db.activeFile = some af →
        setActiveFile db = .ok { db with activeFile := some (openDataFile 0) }) := by
  constructor
  · intro h
    unfold setActiveFile
    rw [h]
  · intro af h
    unfold setActiveFile
    rw [h]

theorem claim_C3_witness :
    setActiveFile ⟨⟨100, false, 0, 0⟩, none, [], [], 0, false, 0, 0⟩
        = .error .panicNilPointer
    ∧ setActiveFile ⟨⟨100, false, 0, 0⟩, some ⟨7, 0, [], false⟩, [], [], 0, false, 0, 0⟩
        = .ok ⟨⟨100, false, 0, 0⟩, some (openDataFile 0), [], [], 0, false, 0, 0⟩ :=
  ⟨(claim_C3_setActiveFile_broken _).1 rfl,
   (claim_C3_setActiveFile_broken _).2 ⟨7, 0, [], false⟩ rfl⟩

set_option maxRecDepth 100000 in
/-- C4: after commit, close and reopen, the rebuilt index maps the batch key
`x` to the position of the TxnFinished marker `⟨0, 10, 15⟩` — not to the
position `⟨0, 0, 10⟩` of the value the batch wrote — and Get consequently
returns the marker's empty value instead of the batch value `"1"`.  This
refutes the claim that replay maps each batch key to its value's position. -/
theorem claim_C4_replay_maps_batch_key_to_marker :
    idxGet replayC4.index [120] = some ⟨0, 10, 15⟩
    ∧ (⟨0, 10, 15⟩ : LogRecordPos) ≠ ⟨0, 0, 10⟩
    ∧ dbGet dbC4reopen [120] = .ok []
    ∧ (Except.ok ([] : Bytes) : Except EngineErr Bytes) ≠ .ok [49] := by decide

set_option maxRecDepth 100000 in
/-- C5: with a single live key readable before the merge, Merge crashes with
the nil-pointer panic (the merge engine's first append dereferences the nil
active file inside `setActiveFile`), so no merge over live data ever
completes and the claimed post-merge reopen behaviour is unreachable. -/
theorem claim_C5_merge_panics_on_live_data :
    dbGet dbC5 [107] = .ok [118]
    ∧ (dbMerge dbC5 100 1000).2 = .error .panicNilPointer := by decide

set_option maxRecDepth 100000 in
/-- C6: the hint record written for a live record carries the record's OLD
position in the primary engine (`⟨3, 0, 10⟩`, the `logRecordPos` argument),
while the record was rewritten into the merge engine's file 0 (the returned
position is discarded), and the two encoded positions differ.  This refutes
the claim that the hint maps the user key to the position in the merge
engine. -/
theorem claim_C6_hint_carries_old_position :
    (mergeC6result.toOption.map (fun p => p.2.content))
        = some (encodeLogRecord ⟨[107], encodeLogRecordPos ⟨3, 0, 10⟩, LogRecordNormal⟩).1
    ∧ (mergeC6result.toOption.map
        (fun p => match p.1.activeFile with | some af => af.fileId | none => 99)) = some 0
    ∧ encodeLogRecordPos ⟨3, 0, 10⟩ ≠ encodeLogRecordPos ⟨0, 0, 10⟩ := by decide

/-- C7: a log record carrying a non-zero transaction sequence and no later
TxnFinished marker with that sequence contributes nothing to the rebuilt
index: replaying the log with and without the record yields the same index, so
every batch whose marker is missing is invisible after recovery. -/
theorem claim_C7_unfinished_txn_invisible (pre post : List (LogRecord × LogRecordPos))
    (e : LogRecord × LogRecordPos) (s : Nat)
    (hs : (parseLogRecordKey e.1.key).2 = s) (hs0 : s ≠ 0)
    (hm : e.1.rtype ≠ LogRecordTxnFinished)
    (hpost : ∀ x ∈ post, ¬ ((parseLogRecordKey x.1.key).2 = s
        ∧ x.1.rtype = LogRecordTxnFinished)) :
    (replayEntries (pre ++ e :: post)).index = (replayEntries (pre ++ post)).index := by
  unfold replayEntries
  rw [List.foldl_append, List.foldl_append, List.foldl_cons]
  set st0 := List.foldl replayStep
    (⟨[], [], nonTransactionSeqNo, 0⟩ : ReplayState) pre with hst0
  have hns : ¬ (s = nonTransactionSeqNo) := by simpa [nonTransactionSeqNo] using hs0
  have hidx : (replayStep st0 e).index = st0.index := by
    simp only [replayStep, hs]
    rw [if_neg hns, if_neg hm]
    split <;> rfl
  have hstash : stashScrub s (replayStep st0 e).stash = stashScrub s st0.stash := by
    simp only [replayStep, hs]
    rw [if_neg hns, if_neg hm]
    split <;> exact stashScrub_append_self s _ st0.stash
  exact replay_fold_rel s post (replayStep st0 e) st0 hpost hidx hstash

set_option maxRecDepth 100000 in
theorem claim_C7_witness :
    (parseLogRecordKey (logRecordKeyWithSeq [120] 1)).2 = 1
    ∧ (replayEntries [(⟨logRecordKeyWithSeq [120] 1, [49], LogRecordNormal⟩,
        ⟨0, 0, 10⟩)]).index = (replayEntries []).index :=
  ⟨by decide,
   claim_C7_unfinished_txn_invisible [] []
     (⟨logRecordKeyWithSeq [120] 1, [49], LogRecordNormal⟩, ⟨0, 0, 10⟩) 1
     (by decide) (by decide) (by decide) (by intro x hx; cases hx)⟩

theorem claim_C8_witness :
    readLogRecord ([1, 2] ++ (encodeLogRecord ⟨[107], [118], LogRecordDeleted⟩).1 ++ [3])
        ((([1, 2] : Bytes)).length : Int)
      = .ok (⟨[107], [118], LogRecordDeleted⟩,
          ((encodeLogRecord ⟨[107], [118], LogRecordDeleted⟩).1.length : Int)) :=
  readLogRecord_roundtrip ⟨[107], [118], LogRecordDeleted⟩ [1, 2] [3]
    (by decide) (by decide) (by decide) (by decide) (by decide)

/-- C9: with the key present in the index and the active file's IO manager
reporting a write error, the tombstone append inside Delete fails with that
error — yet Delete returns success (`return nil`), refuting the claim that the
append error is propagated to the caller. -/
theorem claim_C9_delete_swallows_append_error (db : DB) (key : Bytes) (af : DataFile)
    (pos : LogRecordPos) (hk : key ≠ []) (hidx : idxGet db.index key = some pos)
    (ha : db.activeFile = some af) (hio : af.ioFail = true)
    (hfit : af.writeOff + (encodeLogRecord ⟨logRecordKeyWithSeq key nonTransactionSeqNo, [],
        LogRecordDeleted⟩).2 ≤ db.options.dataFileSize) :
    (dbDelete db key).2 = .ok ()
    ∧ (appendLogRecord db ⟨logRecordKeyWithSeq key nonTransactionSeqNo, [],
        LogRecordDeleted⟩).2 = .error .ioError := by
  have hap : (appendLogRecord db ⟨logRecordKeyWithSeq key nonTransactionSeqNo, [],
      LogRecordDeleted⟩).2 = .error .ioError := by
    simp only [appendLogRecord, ha]
    simp only [appendLogRecordSized, ha]
    rw [if_neg (by omega)]
    simp only [appendWriteStep, ha]
    simp only [dfWrite, hio]
    simp only [if_true]
    rfl
  refine ⟨?_, hap⟩
  unfold dbDelete
  rw [if_neg hk]
  simp only [hidx]
  simp only [hap]

theorem claim_C9_witness :
    (dbDelete ⟨⟨1000, false, 0, 0⟩, some ⟨0, 0, [], true⟩, [],
        [([107], ⟨0, 0, 10⟩)], 0, false, 0, 0⟩ [107]).2 = .ok ()
    ∧ (appendLogRecord ⟨⟨1000, false, 0, 0⟩, some ⟨0, 0, [], true⟩, [],
        [([107], ⟨0, 0, 10⟩)], 0, false, 0, 0⟩
        ⟨logRecordKeyWithSeq [107] nonTransactionSeqNo, [], LogRecordDeleted⟩).2
      = .error .ioError :=
  claim_C9_delete_swallows_append_error _ [107] ⟨0, 0, [], true⟩ ⟨0, 0, 10⟩
    (by decide) rfl rfl rfl (by decide)

/-- C10: Commit on a batch with no staged mutations returns success and leaves
the engine and the batch untouched: no record is appended, no file is created
or rotated, the sequence number is not incremented, and the index is
unchanged — the returned states are exactly the inputs. -/
theorem claim_C10_empty_commit_noop (wb : WriteBatch) (db : DB)
    (h : wb.pendingWrites = []) :
    wbCommit wb db = (db, wb, .ok ()) := by
  unfold wbCommit
  rw [h]
  simp

theorem claim_C10_witness :
    wbCommit ⟨⟨100, false⟩, []⟩
        ⟨⟨1000, false, 0, 0⟩, some ⟨0, 0, [], false⟩, [], [], 5, false, 0, 0⟩
      = (⟨⟨1000, false, 0, 0⟩, some ⟨0, 0, [], false⟩, [], [], 5, false, 0, 0⟩,
         ⟨⟨100, false⟩, []⟩, .ok ()) :=
  claim_C10_empty_commit_noop _ _ rfl

end Bitcask
